import Mathlib

/-!
# Verification of the beads_viewer adaptive graph-analytics engine

Shallow embedding of the analysis core of the repository:

* `pkg/analysis/graph.go` — `NewAnalyzer`, `Analyze`, `computeHeights`
* `pkg/analysis/betweenness_approx.go` — `ApproxBetweenness`,
  `singleSourceBetweenness`, `RecommendSampleSize`
* the `AnalysisConfig` selector `ConfigForSize`

Go machine integers are embedded as `Nat` (all quantities involved are
non-negative and never near overflow in the source), `float64` scores as `ℚ`
(all source arithmetic on them is +, *, /, comparisons — exact on the values
arising here), Go maps with zero-value-on-missing-key semantics as total
functions, and `time.Duration` budgets as milliseconds (`Nat`).

External collaborators (the gonum graph library and the Go runtime RNG) are
not part of the repository; where a claim depends on them they are either
taken as parameters (PageRank, cycle enumeration, the random pivot choice) or
modelled from the spec (exact betweenness, unit-weight shortest-path
distances, topological sort) — each such definition is marked
`Modelled from the spec:` in its doc comment.
-/

/-- Dependency record (Go `model.Dependency`): edge declaration carried by an
issue. Fields as in the Go struct (`IssueID`, `DependsOnID`, `Type`); the
dependency kind is a plain string in the source (`model.DepRelated`,
`model.DepParentChild`, `model.DepBlocks`, ...). -/
structure Dependency where
  issueID : String
  dependsOnID : String
  depType : String
deriving DecidableEq

/-- Dependency-kind constants of the domain model (string values as used by
the repository's tests; only their distinctness matters here). -/
def DepRelated : String := "related"

def DepParentChild : String := "parent-child"

def DepBlocks : String := "blocks"

/-- The "depends-on" kind named by the spec for the analyzer graph. -/
def DepDependsOn : String := "depends-on"

/-- Work-item record (Go `model.Issue`), restricted to the fields the
analyzer reads: its identifier and its declared dependencies. -/
structure Issue where
  id : String
  dependencies : List Dependency
deriving DecidableEq

/-- Directed graph with explicit node and edge lists; embeds
`gonum simple.DirectedGraph` as used by the analyzer (node identity is the
external identifier; the Go int64 ids are a bijective renaming of these). -/
structure DiGraph (α : Type) where
  nodes : List α
  edges : List (α × α)

/-- Successors of `u` (gonum `g.From(u)`): targets of edges leaving `u`. -/
def DiGraph.succs {α : Type} [DecidableEq α] (g : DiGraph α) (u : α) : List α :=
  (g.edges.filter (fun e => decide (e.1 = u))).map (fun e => e.2)

/-- Predecessors of `v` (gonum `g.To(v)`): sources of edges entering `v`. -/
def DiGraph.preds {α : Type} [DecidableEq α] (g : DiGraph α) (v : α) : List α :=
  (g.edges.filter (fun e => decide (e.2 = v))).map (fun e => e.1)

/-- Well-formedness: every edge endpoint is a node of the graph.  Holds for
every graph the repository builds (`NewAnalyzer` only adds an edge when both
endpoints were registered as nodes). -/
def DiGraph.wellFormed {α : Type} (g : DiGraph α) : Prop :=
  ∀ e ∈ g.edges, e.1 ∈ g.nodes ∧ e.2 ∈ g.nodes

/-- Pointwise function update (embeds one Go map store `m[a] = b`). -/
def fupd {α β : Type} [DecidableEq α] (f : α → β) (a : α) (b : β) : α → β :=
  fun x => if x = a then b else f x

/-! ## Graph construction (`NewAnalyzer`, graph.go:31-81) -/

/-- The identifiers declared by the issue list (one per issue record). -/
def declaredIDs (issues : List Issue) : List String :=
  issues.map (fun i => i.id)

/-- The edges `NewAnalyzer` adds (graph.go:60-73): for every issue `u` and
every declared dependency, an edge `u → dep.DependsOnID` is set whenever the
target id exists in the issue list.  The source applies no filter on the
dependency kind. -/
def analyzerEdges (issues : List Issue) : List (String × String) :=
  issues.flatMap (fun i =>
    (i.dependencies.filter (fun d => decide (d.dependsOnID ∈ declaredIDs issues))).map
      (fun d => (i.id, d.dependsOnID)))

/-- The graph `NewAnalyzer` builds, keyed by issue identifier (the Go code
assigns each issue a fresh int64 node id and keeps the id↔node bijection;
this embedding works directly with the string identifiers). -/
def NewAnalyzer (issues : List Issue) : DiGraph String :=
  ⟨(declaredIDs issues).dedup, analyzerEdges issues⟩

/-! ## Betweenness mode and configuration (betweenness_approx.go, config) -/

/-- Constant `BetweennessExact` (the Go `BetweennessMode` is a string type). -/
def BetweennessExact : String := "exact"

/-- Constant `BetweennessApproximate`. -/
def BetweennessApproximate : String := "approximate"

/-- Constant `BetweennessSkip`. -/
def BetweennessSkip : String := "skip"

/-- The `AnalysisConfig` value object; defaults are the Go zero values, so a Go
composite literal that omits a field is embedded by omitting it here.
Timeouts are in milliseconds. -/
structure AnalysisConfig where
  ComputeBetweenness : Bool := false
  BetweennessTimeout : Nat := 0
  BetweennessSkipReason : String := ""
  BetweennessMode : String := ""
  BetweennessSampleSize : Nat := 0
  BetweennessIsApproximate : Bool := false
  ComputePageRank : Bool := false
  PageRankTimeout : Nat := 0
  PageRankSkipReason : String := ""
  ComputeHITS : Bool := false
  HITSTimeout : Nat := 0
  HITSSkipReason : String := ""
  ComputeCycles : Bool := false
  CyclesTimeout : Nat := 0
  MaxCyclesToStore : Nat := 0
  CyclesSkipReason : String := ""
  ComputeEigenvector : Bool := false
  ComputeCriticalPath : Bool := false

/-- The function `RecommendSampleSize` (betweenness_approx.go:258-278): note the
small-graph tier returns `nodeCount` itself ("use exact algorithm"), not a
fixed floor.  The Go source binds `minSample := 50` and
`sample := nodeCount / 5` locally; they are inlined here. -/
def RecommendSampleSize (nodeCount edgeCount : Nat) : Nat :=
  if nodeCount < 100 then
    nodeCount
  else if nodeCount < 500 then
    if nodeCount / 5 > 50 then nodeCount / 5 else 50
  else if nodeCount < 2000 then
    100
  else
    200

/-- Graph density as computed by `ConfigForSize`:
`float64(edgeCount) / float64(nodeCount*(nodeCount-1))` when `nodeCount > 1`,
else 0.  The float64 division is embedded as exact rational division; every
comparison the selector makes against `0.01` and `0.001` is
far from the representation error of `float64`, so the branch taken agrees. -/
def densityQ (nodeCount edgeCount : Nat) : ℚ :=
  if 1 < nodeCount then (edgeCount : ℚ) / ((nodeCount : ℚ) * ((nodeCount : ℚ) - 1)) else 0

/-- The `ConfigForSize` selector (the `forceFull = false` path): size/density-driven
choice of metrics, modes and budgets, following the source case by case.  The
Go source builds the Large and XL configs by mutating a local `cfg` value
after a density test; those two final values are written out literally here. -/
def ConfigForSize (nodeCount edgeCount : Nat) : AnalysisConfig :=
  if nodeCount < 100 then
    { ComputeBetweenness := true, BetweennessMode := BetweennessExact,
      BetweennessTimeout := 2000,
      ComputePageRank := true, PageRankTimeout := 2000,
      ComputeHITS := true, HITSTimeout := 2000,
      ComputeCycles := true, CyclesTimeout := 2000, MaxCyclesToStore := 1000,
      ComputeEigenvector := true, ComputeCriticalPath := true }
  else if nodeCount < 500 then
    { ComputeBetweenness := true, BetweennessMode := BetweennessExact,
      BetweennessTimeout := 500,
      ComputePageRank := true, PageRankTimeout := 500,
      ComputeHITS := true, HITSTimeout := 500,
      ComputeCycles := true, CyclesTimeout := 500, MaxCyclesToStore := 100,
      ComputeEigenvector := true, ComputeCriticalPath := true }
  else if nodeCount < 2000 then
    if densityQ nodeCount edgeCount < 1/100 then
      { ComputeBetweenness := true, BetweennessMode := BetweennessApproximate,
        BetweennessSampleSize := RecommendSampleSize nodeCount edgeCount,
        BetweennessTimeout := 500,
        ComputePageRank := true, PageRankTimeout := 300,
        ComputeHITS := true, HITSTimeout := 300,
        ComputeCycles := true, CyclesTimeout := 300, MaxCyclesToStore := 50,
        ComputeEigenvector := true, ComputeCriticalPath := true }
    else
      { ComputeBetweenness := false, BetweennessMode := BetweennessSkip,
        BetweennessSkipReason := "graph too dense (density > 0.01)",
        ComputePageRank := true, PageRankTimeout := 300,
        ComputeHITS := true, HITSTimeout := 300,
        ComputeCycles := true, CyclesTimeout := 300, MaxCyclesToStore := 50,
        ComputeEigenvector := true, ComputeCriticalPath := true }
  else
    if densityQ nodeCount edgeCount < 1/1000 then
      { ComputeBetweenness := true, BetweennessMode := BetweennessApproximate,
        BetweennessSampleSize := RecommendSampleSize nodeCount edgeCount,
        BetweennessTimeout := 500,
        ComputePageRank := true, PageRankTimeout := 200,
        ComputeHITS := true, HITSTimeout := 200,
        ComputeCycles := false, CyclesSkipReason := "graph too large (>2000 nodes)",
        MaxCyclesToStore := 10,
        ComputeEigenvector := true, ComputeCriticalPath := true }
    else
      { ComputeBetweenness := true, BetweennessMode := BetweennessApproximate,
        BetweennessSampleSize := RecommendSampleSize nodeCount edgeCount,
        BetweennessTimeout := 500,
        ComputePageRank := true, PageRankTimeout := 200,
        ComputeHITS := false, HITSSkipReason := "graph too large and dense",
        ComputeCycles := false, CyclesSkipReason := "graph too large (>2000 nodes)",
        MaxCyclesToStore := 10,
        ComputeEigenvector := true, ComputeCriticalPath := true }

/-! ## Single-source Brandes pass (`singleSourceBetweenness`,
betweenness_approx.go:142-254) -/

/-- Per-pass scratch state: the four per-node Go maps of
`singleSourceBetweenness` (`sigma`, `dist`, `delta`, `pred`).  Reading a
missing key of a Go map yields the zero value, so each map is embedded as a
total function. -/
structure Buffers (α : Type) where
  sigma : α → ℚ
  dist : α → ℚ
  delta : α → ℚ
  pred : α → List α

/-- Fresh `make(map[...])` allocations: every read yields the zero value. -/
def emptyBuffers (α : Type) : Buffers α :=
  ⟨fun _ => 0, fun _ => 0, fun _ => 0, fun _ => []⟩

/-- The per-node initialization loop (betweenness_approx.go:156-162): for
every node set `sigma = 0`, `dist = -1`, `delta = 0`, `pred = nil`.  Run on a
fresh buffer this is the source's initialization; run on an arbitrary reused
buffer it is exactly the `reset` of the spec's pooled design (§4.2/§5),
which rewrites every per-node entry and truncates every predecessor list. -/
def passInit {α : Type} [DecidableEq α] (nodes : List α) (b : Buffers α) : Buffers α :=
  nodes.foldl
    (fun bb n =>
      ⟨fupd bb.sigma n 0, fupd bb.dist n (-1), fupd bb.delta n 0, fupd bb.pred n []⟩)
    b

/-- Modelled from the spec: the shortest-path oracle (gonum
`path.DijkstraFrom`), which on the analyzer's unit-weight graphs produces
hop-count distances (spec §4.2 step 1); `none` encodes `math.Inf(1)`,
i.e. unreachable.  Breadth-first frontier expansion, fueled by the node
count. -/
def hopDistAux {α : Type} [DecidableEq α] (g : DiGraph α) :
    Nat → List α → (α → Option Nat) → Nat → (α → Option Nat)
  | 0, _, dist, _ => dist
  | fuel + 1, frontier, dist, d =>
    let next := ((frontier.flatMap g.succs).dedup).filter (fun v => (dist v).isNone)
    if next.isEmpty then dist
    else hopDistAux g fuel next (fun x => if x ∈ next then some (d + 1) else dist x) (d + 1)

/-- Hop-count distance from `source` (see `hopDistAux`). -/
def hopDist {α : Type} [DecidableEq α] (g : DiGraph α) (source : α) : α → Option Nat :=
  hopDistAux g g.nodes.length [source] (fun x => if x = source then some 0 else none) 0

/-- The `stack` of reachable non-source nodes paired with their distances
(betweenness_approx.go:174-184), sorted by increasing distance (go:187-189).
Go's `sort.Slice` leaves the relative order of equal-distance nodes
unspecified; the embedding fixes the stable insertion sort, one of the
permitted outcomes. -/
def sortedStack {α : Type} [DecidableEq α] (g : DiGraph α) (source : α) : List (α × Nat) :=
  List.insertionSort (fun a b => a.2 ≤ b.2)
    ((g.nodes.filter (fun n => decide (n ≠ source) && (hopDist g source n).isSome)).map
      (fun n => (n, (hopDist g source n).getD 0)))

/-- The distance-map assignment `dist[nid] = d` for every reachable
non-source node (betweenness_approx.go:182). -/
def assignDist {α : Type} [DecidableEq α] (g : DiGraph α) (source : α)
    (dist0 : α → ℚ) : α → ℚ :=
  (g.nodes.filter (fun n => decide (n ≠ source) && (hopDist g source n).isSome)).foldl
    (fun d n => fupd d n (((hopDist g source n).getD 0 : Nat) : ℚ)) dist0

/-- One iteration of the sigma/predecessor construction loop
(betweenness_approx.go:193-232) on the stack entry `nd = (nid, nodeDist)`:
append to `pred[nid]` every graph predecessor `p` with `dist[p] ≥ 0` and
`dist[p] + 1 == nodeDist`; if any were found, add their sigmas into
`sigma[nid]`; otherwise, if `nid` is not the source and there is a direct
edge source → nid, set `sigma[nid] = 1` and `pred[nid] = [source]`. -/
def buildStep {α : Type} [DecidableEq α] (g : DiGraph α) (source : α) (dist : α → ℚ)
    (st : (α → ℚ) × (α → List α)) (nd : α × Nat) : (α → ℚ) × (α → List α) :=
  let nid := nd.1
  let nodeDist : ℚ := (nd.2 : ℚ)
  let ps := st.2 nid ++ (g.preds nid).filter
      (fun p => !(decide (dist p < 0)) && decide (dist p + 1 = nodeDist))
  if ps.isEmpty then
    if nid ≠ source ∧ source ∈ g.preds nid then
      (fupd st.1 nid 1, fupd st.2 nid [source])
    else st
  else
    (ps.foldl (fun f p => fupd f nid (f nid + f p)) st.1, fupd st.2 nid ps)

/-- One iteration of the dependency-accumulation loop
(betweenness_approx.go:235-253), processing stack entries farthest-first on
the state `(delta, bc)`: skip when `sigma[nid] == 0`; otherwise for every
shortest-path predecessor `p` of `nid` add
`(sigma[p] / sigma[nid]) * (1 + delta[nid])` to `delta[p]` (the source keeps
the redundant inner `sigma[nid] > 0` guard), and finally add `delta[nid]`
into the caller-supplied accumulator `bc[nid]` unless `nid` is the source. -/
def accStep {α : Type} [DecidableEq α] (source : α) (sigma : α → ℚ) (pred : α → List α)
    (st : (α → ℚ) × (α → ℚ)) (nd : α × Nat) : (α → ℚ) × (α → ℚ) :=
  let nid := nd.1
  if sigma nid = 0 then st
  else
    let delta1 := (pred nid).foldl
      (fun d pid =>
        if 0 < sigma nid then fupd d pid (d pid + sigma pid / sigma nid * (1 + d nid)) else d)
      st.1
    if nid ≠ source then (delta1, fupd st.2 nid (st.2 nid + delta1 nid)) else (delta1, st.2)

/-- The sigma/predecessor maps produced by the first half of a pass run on
buffer storage `b`: initialization (or pooled reset), the source seeding
`sigma[source] = 1, dist[source] = 0` (go:164-165), distance assignment, and
the increasing-distance construction loop. -/
def passSigmaPred {α : Type} [DecidableEq α] (g : DiGraph α) (source : α)
    (b : Buffers α) : (α → ℚ) × (α → List α) :=
  (sortedStack g source).foldl
    (buildStep g source (assignDist g source (fupd (passInit g.nodes b).dist source 0)))
    (fupd (passInit g.nodes b).sigma source 1, (passInit g.nodes b).pred)

/-- One full single-source accumulation pass run on buffer storage `b`,
merging into the caller-supplied accumulator `bc` and returning the updated
accumulator. -/
def runPass {α : Type} [DecidableEq α] (g : DiGraph α) (source : α) (b : Buffers α)
    (bc : α → ℚ) : α → ℚ :=
  ((sortedStack g source).reverse.foldl
    (accStep source (passSigmaPred g source b).1 (passSigmaPred g source b).2)
    ((passInit g.nodes b).delta, bc)).2

/-- The function `singleSourceBetweenness` (betweenness_approx.go:142-254): the pass run
on freshly allocated maps. -/
def singleSourceBetweenness {α : Type} [DecidableEq α] (g : DiGraph α) (source : α)
    (bc : α → ℚ) : α → ℚ :=
  runPass g source (emptyBuffers α) bc

/-- The final path-count map `sigma` of the fresh pass from `source`. -/
def sigmaFinal {α : Type} [DecidableEq α] (g : DiGraph α) (source : α) : α → ℚ :=
  (passSigmaPred g source (emptyBuffers α)).1

/-! ## Betweenness entry points (`ApproxBetweenness`, betweenness_approx.go:68-114) -/

/-- Modelled from the spec: the delegated exact routine `network.Betweenness`
of the gonum library — "Brandes' full algorithm over all sources" (spec
§4.2 `ComputeExact`) — embedded as the repository's own single-source pass
accumulated over every node of the graph. -/
def exactBetweenness {α : Type} [DecidableEq α] (g : DiGraph α) : α → ℚ :=
  g.nodes.foldl (fun bc s => singleSourceBetweenness g s bc) (fun _ => 0)

/-- The `BetweennessResult` record (betweenness_approx.go:33-51).  The `Elapsed` and
`TimedOut` fields are wall-clock measurements and are not embedded. -/
structure BetweennessResult (α : Type) where
  Scores : α → ℚ
  Mode : String
  SampleSize : Nat
  TotalNodes : Nat

/-- The entry point `ApproxBetweenness` (betweenness_approx.go:68-114).  The random pivot
selection `sampleNodes` (time-seeded Fisher–Yates partial shuffle) is an
external-RNG effect; it is taken as the parameter `pivots` — the list of
chosen pivot nodes, which can be any `sampleSize`-element duplicate-free
sub-list of the node list. -/
def ApproxBetweenness {α : Type} [DecidableEq α] (g : DiGraph α) (sampleSize : Nat)
    (pivots : List α) : BetweennessResult α :=
  if g.nodes.length = 0 then
    ⟨fun _ => 0, BetweennessApproximate, sampleSize, 0⟩
  else if sampleSize ≥ g.nodes.length then
    ⟨exactBetweenness g, BetweennessExact, g.nodes.length, g.nodes.length⟩
  else
    ⟨fun n =>
      (pivots.foldl (fun bc p => singleSourceBetweenness g p bc) (fun _ => 0)) n
        * ((g.nodes.length : ℚ) / (sampleSize : ℚ)),
     BetweennessApproximate, sampleSize, g.nodes.length⟩

/-- A score map taking only natural-number values (path counts). -/
def NatValued {α : Type} (f : α → ℚ) : Prop := ∀ x, ∃ k : ℕ, f x = (k : ℚ)

/-! ## Critical-path heights (`computeHeights`, graph.go:176-256) -/

/-- The inner `maxChildHeight` fold of `computeHeights` (graph.go:239-250):
scan a node's successors, taking the largest already-computed height
(a Go `heights[v]` read with its `ok` flag is an `Option` read here),
starting from `0.0`. -/
def maxHeight {α : Type} (h : α → Option ℚ) (l : List α) : ℚ :=
  l.foldl
    (fun acc v =>
      match h v with
      | some hv => if hv > acc then hv else acc
      | none => acc)
    0

/-- One step of the reverse-topological loop of `computeHeights` (graph.go:236-253):
assign `heights[u] = 1 + maxChildHeight`. -/
def heightsStep {α : Type} [DecidableEq α] (g : DiGraph α) (h : α → Option ℚ) (u : α) :
    α → Option ℚ :=
  fun x => if x = u then some (1 + maxHeight h (g.succs u)) else h x

/-- The function `computeHeights` (graph.go:176-256), parametrized by the topological
order `sorted` that the source obtains from the external `topo.Sort`:
process the order back to front, assigning each node's height from its
already-processed successors.  (The Go function finally re-keys the map by
issue id through the `nodeToID` bijection; the embedding keeps node keys.) -/
def computeHeights {α : Type} [DecidableEq α] (g : DiGraph α) (sorted : List α) :
    α → Option ℚ :=
  sorted.reverse.foldl (heightsStep g) (fun _ => none)

/-- Predicate stating that `sorted` is a valid topological order of `g` —
the contract of the
external `topo.Sort`: it enumerates exactly the nodes of `g`, without
duplicates, and for every edge u → v, u comes before v. -/
def IsTopoOrder {α : Type} [DecidableEq α] (g : DiGraph α) (sorted : List α) : Prop :=
  sorted.Nodup ∧ (∀ x ∈ g.nodes, x ∈ sorted) ∧ (∀ x ∈ sorted, x ∈ g.nodes) ∧
    ∀ e ∈ g.edges, sorted.indexOf e.1 < sorted.indexOf e.2

instance {α : Type} [DecidableEq α] (g : DiGraph α) (sorted : List α) :
    Decidable (IsTopoOrder g sorted) := by
  unfold IsTopoOrder
  infer_instance

/-! ## Topological sort and `Analyze` (graph.go:83-174) -/

/-- Modelled from the spec: the external `topo.Sort` of the gonum library —
"topological sort (fails/returns error on cycles)" (spec §6).  Kahn's
algorithm: repeatedly emit a remaining node with no incoming edge from the
remaining set; `none` embeds the Go error returned when a cycle remains.
Fueled by the node count. -/
def kahnAux {α : Type} [DecidableEq α] (g : DiGraph α) :
    Nat → List α → Option (List α)
  | 0, remaining => if remaining.isEmpty then some [] else none
  | fuel + 1, remaining =>
    if remaining.isEmpty then some []
    else
      match remaining.find? (fun u => !(remaining.any (fun v => decide ((v, u) ∈ g.edges)))) with
      | none => none
      | some u => (kahnAux g fuel (remaining.erase u)).map (fun l => u :: l)

/-- Modelled from the spec: see `kahnAux`. -/
def topoSortKahn {α : Type} [DecidableEq α] (g : DiGraph α) : Option (List α) :=
  kahnAux g g.nodes.length g.nodes

/-- The graph contains a directed cycle: a nonempty edge path from a node `u`
back to itself, running through nodes of the graph. -/
def hasDirectedCycle {α : Type} (g : DiGraph α) : Prop :=
  ∃ (u : α) (p : List α), List.Chain (fun a b => (a, b) ∈ g.edges) u (p ++ [u]) ∧
    ∀ x ∈ u :: p, x ∈ g.nodes

/-- The `GraphStats` record (graph.go:12-21).  Degree maps record key presence
explicitly (`Option`), embedding the Go maps that receive an entry per node;
`Cycles` is filled by the external cycle enumerator. -/
structure GraphStats (α : Type) where
  PageRank : α → ℚ
  Betweenness : α → ℚ
  OutDegree : α → Option Nat
  InDegree : α → Option Nat
  CriticalPathScore : α → Option ℚ
  Cycles : List (List α)
  Density : ℚ
  TopologicalOrder : List α

/-- The entry point `Analyze` (graph.go:83-174), parametrized by the delegated externals:
`pr` embeds gonum `network.PageRank` (damping 0.85, tolerance 1e-6) and
`cyc` embeds `topo.DirectedCyclesIn`; betweenness delegates to the modelled
exact routine and the topological sort to the modelled Kahn sort.  The Go
function has no error return: a failing sort (cycle present) only leaves
`TopologicalOrder` empty and skips `computeHeights`, so `CriticalPathScore`
stays the empty map.  Density is `e/(n(n−1))` for `n > 1`, where `n` is the
number of PageRank entries — one per node.  (The Go maps are keyed by issue
id through the analyzer's id↔node bijection; the embedding keeps node
keys.) -/
def Analyze {α : Type} [DecidableEq α] (pr : DiGraph α → α → ℚ)
    (cyc : DiGraph α → List (List α)) (g : DiGraph α) : GraphStats α :=
  { PageRank := pr g
    Betweenness := exactBetweenness g
    OutDegree := fun n => if n ∈ g.nodes then some (g.succs n).length else none
    InDegree := fun n => if n ∈ g.nodes then some (g.preds n).length else none
    CriticalPathScore :=
      match topoSortKahn g with
      | some sorted => computeHeights g sorted
      | none => fun _ => none
    Cycles := cyc g
    Density :=
      if 1 < g.nodes.length then
        (g.edges.length : ℚ) / ((g.nodes.length : ℚ) * ((g.nodes.length : ℚ) - 1))
      else 0
    TopologicalOrder :=
      match topoSortKahn g with
      | some sorted => sorted.reverse
      | none => [] }

/-! ## Pooled-buffer pass (C10): the reset-then-run variant -/

/-- Modelled from the spec: the pooled single-source pass of the required
resource design (§4.2/§5): a reusable buffer bundle is checked out with
arbitrary stale contents left by earlier passes and `reset` rather than
reallocated — the reset loop rewrites every node's `sigma`/`dist`/`delta`
entry and truncates every predecessor list to length zero, which is exactly
the per-node initialization loop of the fresh pass (`passInit`) — after
which the pass runs unchanged. -/
def pooledSingleSourceBetweenness {α : Type} [DecidableEq α] (g : DiGraph α) (source : α)
    (stale : Buffers α) (bc : α → ℚ) : α → ℚ :=
  runPass g source stale bc

instance {α : Type} (g : DiGraph α) [DecidableEq α] : Decidable (g.wellFormed) := by
  unfold DiGraph.wellFormed
  infer_instance

/-! ## Concrete instances used by witnesses and counterexamples -/

/-- A two-issue input whose only dependency has kind "related". -/
def issuesRelOnly : List Issue :=
  [⟨"A", [⟨"A", "B", DepRelated⟩]⟩, ⟨"B", []⟩]

/-- A concrete 2-node graph used as the fallback-law witness. -/
def gPath2 : DiGraph Nat := ⟨[0, 1], [(0, 1)]⟩

/-- The 3-node path 0 → 1 → 2 (the C8 counterexample graph). -/
def gP3 : DiGraph Nat := ⟨[0, 1, 2], [(0, 1), (1, 2)]⟩

/-- A 3-node graph with a single edge 0 → 1; node 2 is unreachable from 0. -/
def gIso : DiGraph Nat := ⟨[0, 1, 2], [(0, 1)]⟩

/-- The chain A→B→C (A depends on B, B depends on C), encoded as 0→1→2. -/
def gChain : DiGraph Nat := ⟨[0, 1, 2], [(0, 1), (1, 2)]⟩

/-- A fork 0→1, 0→2, which admits two valid topological orders. -/
def gFork : DiGraph Nat := ⟨[0, 1, 2], [(0, 1), (0, 2)]⟩

/-- Two issues blocking each other: the dependency graph is the 2-cycle
A → B → A (the dependency kinds are irrelevant to the analyzer's graph). -/
def issuesCyc : List Issue :=
  [⟨"A", [⟨"A", "B", DepBlocks⟩]⟩, ⟨"B", [⟨"B", "A", DepBlocks⟩]⟩]

/-- A deliberately garbage-filled buffer left over from "earlier passes". -/
def staleDemo : Buffers Nat := ⟨fun _ => 42, fun _ => 7, fun _ => -3, fun _ => [99]⟩

/-! ## Generic lemmas about pointwise updates and initialization folds -/

theorem fupd_same {α β : Type} [DecidableEq α] (f : α → β) (a : α) (b : β) :
    fupd f a b a = b := by
  simp [fupd]

theorem fupd_other {α β : Type} [DecidableEq α] (f : α → β) (a : α) (b : β) (x : α)
    (h : x ≠ a) : fupd f a b x = f x := by
  simp [fupd, h]

theorem passInit_sigma {α : Type} [DecidableEq α] (nodes : List α) (b : Buffers α) :
    (passInit nodes b).sigma = nodes.foldl (fun f n => fupd f n 0) b.sigma := by
  induction nodes generalizing b with
  | nil => rfl
  | cons a tl ih =>
    simp only [passInit, List.foldl_cons] at ih ⊢
    rw [ih]

theorem passInit_dist {α : Type} [DecidableEq α] (nodes : List α) (b : Buffers α) :
    (passInit nodes b).dist = nodes.foldl (fun f n => fupd f n (-1)) b.dist := by
  induction nodes generalizing b with
  | nil => rfl
  | cons a tl ih =>
    simp only [passInit, List.foldl_cons] at ih ⊢
    rw [ih]

theorem passInit_delta {α : Type} [DecidableEq α] (nodes : List α) (b : Buffers α) :
    (passInit nodes b).delta = nodes.foldl (fun f n => fupd f n 0) b.delta := by
  induction nodes generalizing b with
  | nil => rfl
  | cons a tl ih =>
    simp only [passInit, List.foldl_cons] at ih ⊢
    rw [ih]

theorem passInit_pred {α : Type} [DecidableEq α] (nodes : List α) (b : Buffers α) :
    (passInit nodes b).pred = nodes.foldl (fun f n => fupd f n []) b.pred := by
  induction nodes generalizing b with
  | nil => rfl
  | cons a tl ih =>
    simp only [passInit, List.foldl_cons] at ih ⊢
    rw [ih]

theorem foldl_fupd_not_mem {α β : Type} [DecidableEq α] (l : List α) (c : β) (f0 : α → β)
    (x : α) (hx : x ∉ l) : (l.foldl (fun f n => fupd f n c) f0) x = f0 x := by
  induction l generalizing f0 with
  | nil => rfl
  | cons a tl ih =>
    rw [List.foldl_cons, ih _ (fun h => hx (List.mem_cons_of_mem a h))]
    exact fupd_other _ _ _ _ (fun h => hx (h ▸ List.mem_cons_self a tl))

theorem foldl_fupd_mem {α β : Type} [DecidableEq α] (l : List α) (c : β) (f0 : α → β)
    (x : α) (hx : x ∈ l) : (l.foldl (fun f n => fupd f n c) f0) x = c := by
  induction l generalizing f0 with
  | nil => cases hx
  | cons a tl ih =>
    rw [List.foldl_cons]
    by_cases h : x ∈ tl
    · exact ih _ h
    · have hxa : x = a := by
        rcases List.mem_cons.mp hx with h1 | h1
        · exact h1
        · exact absurd h1 h
      rw [foldl_fupd_not_mem tl c _ x h, hxa]
      exact fupd_same _ _ _

/-! ## Sigma is natural-number valued (C9 infrastructure) -/

theorem natValued_fupd {α : Type} [DecidableEq α] {f : α → ℚ} (hf : NatValued f) (a : α)
    {q : ℚ} (hq : ∃ k : ℕ, q = (k : ℚ)) : NatValued (fupd f a q) := by
  intro x
  by_cases h : x = a
  · subst h
    rw [fupd_same]
    exact hq
  · rw [fupd_other _ _ _ _ h]
    exact hf x

theorem sigmaSum_natValued {α : Type} [DecidableEq α] (nid : α) (ps : List α) (f : α → ℚ)
    (hf : NatValued f) :
    NatValued (ps.foldl (fun f p => fupd f nid (f nid + f p)) f) := by
  induction ps generalizing f with
  | nil => exact hf
  | cons a tl ih =>
    rw [List.foldl_cons]
    apply ih
    apply natValued_fupd hf
    obtain ⟨k1, h1⟩ := hf nid
    obtain ⟨k2, h2⟩ := hf a
    exact ⟨k1 + k2, by rw [h1, h2]; push_cast; ring⟩

theorem buildStep_natValued {α : Type} [DecidableEq α] (g : DiGraph α) (source : α)
    (dist : α → ℚ) (st : (α → ℚ) × (α → List α)) (nd : α × Nat) (h : NatValued st.1) :
    NatValued (buildStep g source dist st nd).1 := by
  unfold buildStep
  by_cases h1 : (st.2 nd.1 ++ (g.preds nd.1).filter
      (fun p => !(decide (dist p < 0)) && decide (dist p + 1 = (nd.2 : ℚ)))).isEmpty
  · rw [if_pos h1]
    by_cases h2 : nd.1 ≠ source ∧ source ∈ g.preds nd.1
    · rw [if_pos h2]
      exact natValued_fupd h _ ⟨1, by norm_num⟩
    · rw [if_neg h2]
      exact h
  · rw [if_neg h1]
    exact sigmaSum_natValued _ _ _ h

theorem passFold_natValued {α : Type} [DecidableEq α] (g : DiGraph α) (source : α)
    (dist : α → ℚ) (l : List (α × Nat)) (st : (α → ℚ) × (α → List α))
    (h : NatValued st.1) : NatValued (l.foldl (buildStep g source dist) st).1 := by
  induction l generalizing st with
  | nil => exact h
  | cons a tl ih => exact ih _ (buildStep_natValued g source dist st a h)

theorem sigmaFinal_natValued {α : Type} [DecidableEq α] (g : DiGraph α) (source : α) :
    NatValued (sigmaFinal g source) := by
  apply passFold_natValued
  apply natValued_fupd _ source ⟨1, by norm_num⟩
  intro x
  rw [passInit_sigma]
  by_cases hx : x ∈ g.nodes
  · rw [foldl_fupd_mem _ _ _ _ hx]
    exact ⟨0, by norm_num⟩
  · rw [foldl_fupd_not_mem _ _ _ _ hx]
    exact ⟨0, rfl⟩

/-! ## Accumulation-pass lemmas -/

/-- Nodes whose final sigma is zero are skipped by every accumulation step,
so the caller-supplied accumulator is never written at such a node. -/
theorem accFold_bc_preserve {α : Type} [DecidableEq α] (source : α) (sigma : α → ℚ)
    (pred : α → List α) (l : List (α × Nat)) (st : (α → ℚ) × (α → ℚ)) (n : α)
    (h0 : sigma n = 0) :
    (l.foldl (accStep source sigma pred) st).2 n = st.2 n := by
  induction l generalizing st with
  | nil => rfl
  | cons a tl ih =>
    rw [List.foldl_cons, ih]
    simp only [accStep]
    by_cases h1 : sigma a.1 = 0
    · rw [if_pos h1]
    · rw [if_neg h1]
      by_cases h2 : a.1 ≠ source
      · rw [if_pos h2]
        exact fupd_other _ _ _ _ (fun he => h1 (he ▸ h0))
      · rw [if_neg h2]

theorem deltaFold_nonneg {α : Type} [DecidableEq α] (sigma : α → ℚ)
    (hσ : ∀ x, 0 ≤ sigma x) (nid : α) (ps : List α) (d : α → ℚ) (hd : ∀ x, 0 ≤ d x) :
    ∀ x, 0 ≤ (ps.foldl
      (fun d pid =>
        if 0 < sigma nid then fupd d pid (d pid + sigma pid / sigma nid * (1 + d nid)) else d)
      d) x := by
  induction ps generalizing d with
  | nil => exact hd
  | cons a tl ih =>
    rw [List.foldl_cons]
    apply ih
    by_cases h : 0 < sigma nid
    · rw [if_pos h]
      intro x
      by_cases hx : x = a
      · subst hx
        rw [fupd_same]
        have hterm : 0 ≤ sigma x / sigma nid * (1 + d nid) :=
          mul_nonneg (div_nonneg (hσ x) (hσ nid)) (by linarith [hd nid])
        linarith [hd x]
      · rw [fupd_other _ _ _ _ hx]
        exact hd x
    · rw [if_neg h]
      exact hd

theorem accStep_nonneg {α : Type} [DecidableEq α] (source : α) (sigma : α → ℚ)
    (pred : α → List α) (hσ : ∀ x, 0 ≤ sigma x) (st : (α → ℚ) × (α → ℚ)) (nd : α × Nat)
    (h1 : ∀ x, 0 ≤ st.1 x) (h2 : ∀ x, 0 ≤ st.2 x) :
    (∀ x, 0 ≤ (accStep source sigma pred st nd).1 x) ∧
      (∀ x, 0 ≤ (accStep source sigma pred st nd).2 x) := by
  simp only [accStep]
  by_cases hz : sigma nd.1 = 0
  · rw [if_pos hz]
    exact ⟨h1, h2⟩
  · rw [if_neg hz]
    have hδ := deltaFold_nonneg sigma hσ nd.1 (pred nd.1) st.1 h1
    by_cases hs : nd.1 ≠ source
    · rw [if_pos hs]
      refine ⟨hδ, fun x => ?_⟩
      dsimp only
      by_cases hx : x = nd.1
      · subst hx
        rw [fupd_same]
        linarith [h2 nd.1, hδ nd.1]
      · rw [fupd_other _ _ _ _ hx]
        exact h2 x
    · rw [if_neg hs]
      exact ⟨hδ, h2⟩

theorem accFold_nonneg {α : Type} [DecidableEq α] (source : α) (sigma : α → ℚ)
    (pred : α → List α) (hσ : ∀ x, 0 ≤ sigma x) (l : List (α × Nat))
    (st : (α → ℚ) × (α → ℚ)) (h1 : ∀ x, 0 ≤ st.1 x) (h2 : ∀ x, 0 ≤ st.2 x) :
    ∀ x, 0 ≤ (l.foldl (accStep source sigma pred) st).2 x := by
  induction l generalizing st with
  | nil => exact h2
  | cons a tl ih =>
    rw [List.foldl_cons]
    obtain ⟨ha1, ha2⟩ := accStep_nonneg source sigma pred hσ st a h1 h2
    exact ih _ ha1 ha2

theorem sigmaFinal_nonneg {α : Type} [DecidableEq α] (g : DiGraph α) (source : α) :
    ∀ x, 0 ≤ sigmaFinal g source x := by
  intro x
  obtain ⟨k, hk⟩ := sigmaFinal_natValued g source x
  rw [hk]
  exact_mod_cast Nat.zero_le k

theorem singleSourceBetweenness_mono_nonneg {α : Type} [DecidableEq α] (g : DiGraph α)
    (source : α) (bc : α → ℚ) (hbc : ∀ x, 0 ≤ bc x) :
    ∀ x, 0 ≤ singleSourceBetweenness g source bc x := by
  have hδ : ∀ x, 0 ≤ (passInit g.nodes (emptyBuffers α)).delta x := by
    intro x
    rw [passInit_delta]
    by_cases hx : x ∈ g.nodes
    · rw [foldl_fupd_mem _ _ _ _ hx]
    · rw [foldl_fupd_not_mem _ _ _ _ hx]
      exact le_refl 0
  exact accFold_nonneg source _ _ (sigmaFinal_nonneg g source) _ _ hδ hbc

theorem pivotsFold_nonneg {α : Type} [DecidableEq α] (g : DiGraph α) (pivots : List α)
    (bc : α → ℚ) (hbc : ∀ x, 0 ≤ bc x) :
    ∀ x, 0 ≤ (pivots.foldl (fun bc p => singleSourceBetweenness g p bc) bc) x := by
  induction pivots generalizing bc with
  | nil => exact hbc
  | cons a tl ih =>
    rw [List.foldl_cons]
    exact ih _ (singleSourceBetweenness_mono_nonneg g a bc hbc)

theorem exactBetweenness_nonneg {α : Type} [DecidableEq α] (g : DiGraph α) :
    ∀ x, 0 ≤ exactBetweenness g x :=
  pivotsFold_nonneg g g.nodes (fun _ => 0) (fun _ => le_refl 0)

/-! ## Theorems for the configuration claims (C3, C4, C5) -/

/-- C3 (counterexample): the claim's small-graph tier is wrong — at
`nodeCount = 10` the code returns `10` (the node count itself, so that the
caller uses the exact algorithm), not the claimed fixed floor of `50`. -/
theorem RecommendSampleSize_small_tier_cex :
    RecommendSampleSize 10 0 = 10 ∧ RecommendSampleSize 10 0 ≠ 50 := by
  constructor <;> decide

/-- C3 (amended): `RecommendSampleSize` is a step function of node count
returning `nodeCount` itself for small graphs (`nodeCount < 100`),
`max (nodeCount / 5) 50` for mid-size graphs, a flat `100` for large graphs
(`500 ≤ nodeCount < 2000`) and a flat `200` for very large graphs. -/
theorem RecommendSampleSize_step_function (n e : Nat) :
    RecommendSampleSize n e =
      if n < 100 then n
      else if n < 500 then max (n / 5) 50
      else if n < 2000 then 100
      else 200 := by
  unfold RecommendSampleSize
  split_ifs <;> omega

/-- Helper: the recommended sample size in the Large tier is the flat 100. -/
theorem recommendSampleSize_large (n e : Nat) (h1 : 500 ≤ n) (h2 : n < 2000) :
    RecommendSampleSize n e = 100 := by
  unfold RecommendSampleSize
  split_ifs <;> omega

/-- Helper: the recommended sample size in the XL tier is the flat 200. -/
theorem recommendSampleSize_xl (n e : Nat) (h1 : 2000 ≤ n) :
    RecommendSampleSize n e = 200 := by
  unfold RecommendSampleSize
  split_ifs <;> omega

/-- C4: the three concrete selections of the spec hold, and in the Large tier
(500–1999 nodes) betweenness is Approximate exactly when density < 0.01,
otherwise Skip with a non-empty reason. -/
theorem ConfigForSize_selection_policy :
    (ConfigForSize 50 100).BetweennessMode = BetweennessExact ∧
    (ConfigForSize 1500 1000).BetweennessMode = BetweennessApproximate ∧
    (ConfigForSize 1500 1000).BetweennessSampleSize = 100 ∧
    (ConfigForSize 1500 50000).BetweennessMode = BetweennessSkip ∧
    (ConfigForSize 1500 50000).BetweennessSkipReason ≠ "" ∧
    (∀ n e : Nat, 500 ≤ n → n < 2000 →
      (((ConfigForSize n e).BetweennessMode = BetweennessApproximate ↔ densityQ n e < 1/100) ∧
       (¬ densityQ n e < 1/100 →
         (ConfigForSize n e).BetweennessMode = BetweennessSkip ∧
         (ConfigForSize n e).BetweennessSkipReason ≠ ""))) := by
  have hd1 : densityQ 1500 1000 < 1/100 := by norm_num [densityQ]
  have hd2 : ¬ densityQ 1500 50000 < 1/100 := by norm_num [densityQ]
  refine ⟨?_, ?_, ?_, ?_, ?_, ?_⟩
  · rw [ConfigForSize, if_pos (by norm_num)]
  · rw [ConfigForSize, if_neg (by norm_num), if_neg (by norm_num), if_pos (by norm_num),
      if_pos hd1]
  · rw [ConfigForSize, if_neg (by norm_num), if_neg (by norm_num), if_pos (by norm_num),
      if_pos hd1]
    exact recommendSampleSize_large 1500 1000 (by norm_num) (by norm_num)
  · rw [ConfigForSize, if_neg (by norm_num), if_neg (by norm_num), if_pos (by norm_num),
      if_neg hd2]
  · rw [ConfigForSize, if_neg (by norm_num), if_neg (by norm_num), if_pos (by norm_num),
      if_neg hd2]
    decide
  · intro n e h1 h2
    rw [ConfigForSize, if_neg (by omega), if_neg (by omega), if_pos h2]
    by_cases hd : densityQ n e < 1/100
    · rw [if_pos hd]
      exact ⟨⟨fun _ => hd, fun _ => rfl⟩, fun hcon => absurd hd hcon⟩
    · rw [if_neg hd]
      refine ⟨⟨fun hmode => absurd hmode (by decide), fun hdd => absurd hdd hd⟩,
        fun _ => ⟨rfl, by decide⟩⟩

/-- C4 (witness): the general Large-tier clause instantiated at
`(nodeCount, edgeCount) = (700, 500000)`, a dense large graph. -/
theorem ConfigForSize_selection_policy_witness :
    (ConfigForSize 700 500000).BetweennessMode = BetweennessSkip ∧
    (ConfigForSize 700 500000).BetweennessSkipReason ≠ "" := by
  have h := (ConfigForSize_selection_policy.2.2.2.2.2 700 500000 (by norm_num) (by norm_num)).2
  exact h (by norm_num [densityQ])

/-- C5: whenever `ConfigForSize` selects Approximate betweenness, the sample
size is at least 1 and strictly below the node count. -/
theorem ConfigForSize_approximate_sample_in_range (n e : Nat)
    (h : (ConfigForSize n e).BetweennessMode = BetweennessApproximate) :
    1 ≤ (ConfigForSize n e).BetweennessSampleSize ∧
      (ConfigForSize n e).BetweennessSampleSize < n := by
  by_cases h1 : n < 100
  · rw [ConfigForSize, if_pos h1] at h
    exact absurd h (by decide)
  · by_cases h2 : n < 500
    · rw [ConfigForSize, if_neg h1, if_pos h2] at h
      exact absurd h (by decide)
    · by_cases h3 : n < 2000
      · by_cases hd : densityQ n e < 1/100
        · rw [ConfigForSize, if_neg h1, if_neg h2, if_pos h3, if_pos hd,
            recommendSampleSize_large n e (by omega) h3]
          exact ⟨by norm_num, by show (100:Nat) < n; omega⟩
        · rw [ConfigForSize, if_neg h1, if_neg h2, if_pos h3, if_neg hd] at h
          exact absurd h (by decide)
      · by_cases hd : densityQ n e < 1/1000
        · rw [ConfigForSize, if_neg h1, if_neg h2, if_neg h3, if_pos hd,
            recommendSampleSize_xl n e (by omega)]
          exact ⟨by norm_num, by show (200:Nat) < n; omega⟩
        · rw [ConfigForSize, if_neg h1, if_neg h2, if_neg h3, if_neg hd,
            recommendSampleSize_xl n e (by omega)]
          exact ⟨by norm_num, by show (200:Nat) < n; omega⟩

/-- C5 (witness): at `(1500, 1000)` the selector picks Approximate mode and
the sample size `100` indeed lies in `[1, 1500)`. -/
theorem ConfigForSize_approximate_sample_in_range_witness :
    1 ≤ (ConfigForSize 1500 1000).BetweennessSampleSize ∧
      (ConfigForSize 1500 1000).BetweennessSampleSize < 1500 :=
  ConfigForSize_approximate_sample_in_range 1500 1000
    (by norm_num [ConfigForSize, densityQ, BetweennessApproximate])

/-! ## Theorems for the graph-construction claim (C1) -/

/-- C1 (counterexample): the claim says an edge is added only for
dependencies of kind "depends-on", but `NewAnalyzer` applies no kind filter:
with a single dependency of kind "related" the edge A → B is added even
though no dependency in the input has the "depends-on" kind. -/
theorem NewAnalyzer_kind_filter_cex :
    ("A", "B") ∈ (NewAnalyzer issuesRelOnly).edges ∧
    (∀ i ∈ issuesRelOnly, ∀ d ∈ i.dependencies, d.depType ≠ DepDependsOn) := by
  constructor <;> decide

/-- C1 (amended): an edge u → v is in the analyzer's graph iff some issue
with id `u` declares a dependency on `v` and `v` exists in the issue list —
irrespective of the dependency's kind. -/
theorem NewAnalyzer_edge_iff (issues : List Issue) (u v : String) :
    (u, v) ∈ (NewAnalyzer issues).edges ↔
      ∃ i ∈ issues, i.id = u ∧
        ∃ d ∈ i.dependencies, d.dependsOnID = v ∧ v ∈ declaredIDs issues := by
  simp only [NewAnalyzer, analyzerEdges, List.mem_flatMap, List.mem_map, List.mem_filter,
    decide_eq_true_eq, Prod.mk.injEq]
  constructor
  · rintro ⟨i, hi, d, ⟨hd, hv⟩, rfl, rfl⟩
    exact ⟨i, hi, rfl, d, hd, rfl, hv⟩
  · rintro ⟨i, hi, rfl, d, hd, rfl, hv⟩
    exact ⟨i, hi, d, ⟨hd, hv⟩, rfl, rfl⟩

/-! ## Theorems for the betweenness claims (C2, C8, C9) -/

/-- C2: whenever `sampleSize ≥ nodeCount`, `ApproxBetweenness` returns
exactly the scores of the delegated exact computation (fallback law).  The
empty graph returns the empty score map without delegating, which coincides
with the exact routine's output on an empty graph. -/
theorem ApproxBetweenness_fallback_law {α : Type} [DecidableEq α] (g : DiGraph α)
    (sampleSize : Nat) (pivots : List α) (h : g.nodes.length ≤ sampleSize) :
    (ApproxBetweenness g sampleSize pivots).Scores = exactBetweenness g := by
  unfold ApproxBetweenness
  by_cases h0 : g.nodes.length = 0
  · rw [if_pos h0]
    have hnil : g.nodes = [] := List.length_eq_zero.mp h0
    show (fun _ => 0) = exactBetweenness g
    rw [exactBetweenness, hnil]
    rfl
  · rw [if_neg h0, if_pos h]

/-- C2 (witness): the fallback law at the concrete graph `0 → 1` with
`sampleSize = 5 ≥ 2` nodes. -/
theorem ApproxBetweenness_fallback_law_witness :
    (ApproxBetweenness gPath2 5 []).Scores = exactBetweenness gPath2 :=
  ApproxBetweenness_fallback_law gPath2 5 [] (by decide)

set_option maxHeartbeats 1000000 in
/-- C8 (counterexample): on the path 0 → 1 → 2 with `sampleSize = 1` and
pivot list `[0]` (a duplicate-free one-element selection of nodes, which the
time-seeded Fisher–Yates sampler can produce), the scaled score of node 1 is
`1 * (3/1) = 3`, strictly above the claimed directed-graph bound
`(n−1)(n−2) = 2`.  The per-pivot contributions respect the bound, but the
`nodeCount/sampleSize` extrapolation does not preserve it. -/
theorem ApproxBetweenness_directed_bound_cex :
    [0].Nodup ∧ (∀ p ∈ [0], p ∈ gP3.nodes) ∧ [0].length = 1 ∧
    (ApproxBetweenness gP3 1 [0]).Scores 1 = 3 ∧
    ¬ (ApproxBetweenness gP3 1 [0]).Scores 1 ≤
        ((gP3.nodes.length : ℚ) - 1) * ((gP3.nodes.length : ℚ) - 2) := by
  have hnodes : gP3.nodes = [0, 1, 2] := rfl
  have hstack : sortedStack gP3 0 = [(1, 1), (2, 2)] := by decide
  have hd0 : hopDist gP3 0 0 = some 0 := by decide
  have hd1 : hopDist gP3 0 1 = some 1 := by decide
  have hd2 : hopDist gP3 0 2 = some 2 := by decide
  have hp0 : gP3.preds 0 = [] := by decide
  have hp1 : gP3.preds 1 = [0] := by decide
  have hp2 : gP3.preds 2 = [1] := by decide
  have hval : (ApproxBetweenness gP3 1 [0]).Scores 1 = 3 := by
    norm_num [ApproxBetweenness, singleSourceBetweenness, runPass, passSigmaPred, passInit,
      emptyBuffers, fupd, assignDist, buildStep, accStep,
      hnodes, hstack, hd0, hd1, hd2, hp0, hp1, hp2]
  refine ⟨by decide, by decide, rfl, hval, ?_⟩
  rw [hval, hnodes]
  norm_num

/-- C8 (amended): every score `ApproxBetweenness` returns is non-negative
(the lower half of the claimed bound), for every graph, sample size and
pivot selection; the upper bound `(n−1)(n−2)` does not survive the
`nodeCount/sampleSize` scaling, as the counterexample shows. -/
theorem ApproxBetweenness_scores_nonneg {α : Type} [DecidableEq α] (g : DiGraph α)
    (sampleSize : Nat) (pivots : List α) (n : α) :
    0 ≤ (ApproxBetweenness g sampleSize pivots).Scores n := by
  unfold ApproxBetweenness
  by_cases h0 : g.nodes.length = 0
  · rw [if_pos h0]
  · rw [if_neg h0]
    by_cases h1 : sampleSize ≥ g.nodes.length
    · rw [if_pos h1]
      exact exactBetweenness_nonneg g n
    · rw [if_neg h1]
      dsimp only
      apply mul_nonneg
      · exact pivotsFold_nonneg g pivots _ (fun _ => le_refl 0) n
      · positivity

/-- C9: in the accumulation pass, (a) a node whose final path count `sigma`
is zero is skipped entirely — the caller-supplied accumulator `bc` is left
unchanged at that node — and (b) any node not skipped (final `sigma ≠ 0`)
has `sigma ≥ 1`, so the division `sigma[p]/sigma[n]` performed for processed
nodes never has a zero denominator. -/
theorem singleSourceBetweenness_zero_sigma_safety {α : Type} [DecidableEq α] (g : DiGraph α)
    (source n : α) :
    (sigmaFinal g source n = 0 →
      ∀ bc : α → ℚ, singleSourceBetweenness g source bc n = bc n) ∧
    (sigmaFinal g source n ≠ 0 → 1 ≤ sigmaFinal g source n) := by
  constructor
  · intro h0 bc
    exact accFold_bc_preserve source _ _ _ _ n h0
  · intro hne
    obtain ⟨k, hk⟩ := sigmaFinal_natValued g source n
    rw [hk] at hne ⊢
    have hk0 : k ≠ 0 := fun h => hne (by rw [h]; norm_num)
    exact_mod_cast Nat.one_le_iff_ne_zero.mpr hk0

set_option maxHeartbeats 1000000 in
/-- C9 (witness): from pivot 0 in `gIso`, the unreachable node 2 has final
`sigma = 0` and an accumulator seeded with 7 is left unchanged there, while
the reachable node 1 has `sigma = 1 ≥ 1`. -/
theorem singleSourceBetweenness_zero_sigma_safety_witness :
    sigmaFinal gIso 0 2 = 0 ∧
    singleSourceBetweenness gIso 0 (fun _ => 7) 2 = 7 ∧
    1 ≤ sigmaFinal gIso 0 1 := by
  have hnodes : gIso.nodes = [0, 1, 2] := rfl
  have hstack : sortedStack gIso 0 = [(1, 1)] := by decide
  have hd0 : hopDist gIso 0 0 = some 0 := by decide
  have hd1 : hopDist gIso 0 1 = some 1 := by decide
  have hd2 : hopDist gIso 0 2 = none := by decide
  have hp1 : gIso.preds 1 = [0] := by decide
  have hσ2 : sigmaFinal gIso 0 2 = 0 := by
    norm_num [sigmaFinal, passSigmaPred, passInit, emptyBuffers, fupd, assignDist, buildStep,
      hnodes, hstack, hd0, hd1, hd2, hp1]
  have hσ1 : sigmaFinal gIso 0 1 = 1 := by
    norm_num [sigmaFinal, passSigmaPred, passInit, emptyBuffers, fupd, assignDist, buildStep,
      hnodes, hstack, hd0, hd1, hd2, hp1]
  refine ⟨hσ2, ?_, ?_⟩
  · exact (singleSourceBetweenness_zero_sigma_safety gIso 0 2).1 hσ2 (fun _ => 7)
  · exact (singleSourceBetweenness_zero_sigma_safety gIso 0 1).2 (by rw [hσ1]; norm_num)

theorem mem_succs_iff {α : Type} [DecidableEq α] (g : DiGraph α) (u v : α) :
    v ∈ g.succs u ↔ (u, v) ∈ g.edges := by
  simp only [DiGraph.succs, List.mem_map, List.mem_filter, decide_eq_true_eq]
  constructor
  · rintro ⟨e, ⟨he, h1⟩, h2⟩
    have : e = (u, v) := Prod.ext h1 h2
    exact this ▸ he
  · intro h
    exact ⟨(u, v), ⟨h, rfl⟩, rfl⟩

theorem mem_preds_iff {α : Type} [DecidableEq α] (g : DiGraph α) (p v : α) :
    p ∈ g.preds v ↔ (p, v) ∈ g.edges := by
  simp only [DiGraph.preds, List.mem_map, List.mem_filter, decide_eq_true_eq]
  constructor
  · rintro ⟨e, ⟨he, h1⟩, h2⟩
    have : e = (p, v) := Prod.ext h2 h1
    exact this ▸ he
  · intro h
    exact ⟨(p, v), ⟨h, rfl⟩, rfl⟩

theorem heightsFold_not_mem {α : Type} [DecidableEq α] (g : DiGraph α) (l : List α)
    (h0 : α → Option ℚ) (x : α) (hx : x ∉ l) :
    (l.foldl (heightsStep g) h0) x = h0 x := by
  induction l generalizing h0 with
  | nil => rfl
  | cons a tl ih =>
    rw [List.foldl_cons, ih _ (fun h => hx (List.mem_cons_of_mem a h))]
    simp only [heightsStep]
    exact if_neg (fun (h : x = a) => hx (h ▸ List.mem_cons_self a tl))

theorem foldl_congr_fn {α β : Type} (l : List α) (f g : β → α → β) (b : β)
    (h : ∀ acc, ∀ x ∈ l, f acc x = g acc x) : l.foldl f b = l.foldl g b := by
  induction l generalizing b with
  | nil => rfl
  | cons a tl ih =>
    rw [List.foldl_cons, List.foldl_cons, h b a (List.mem_cons_self a tl)]
    exact ih _ (fun acc x hx => h acc x (List.mem_cons_of_mem a hx))

theorem maxHeight_congr {α : Type} (h1 h2 : α → Option ℚ) (l : List α)
    (h : ∀ v ∈ l, h1 v = h2 v) : maxHeight h1 l = maxHeight h2 l := by
  unfold maxHeight
  exact foldl_congr_fn l _ _ 0 (fun acc v hv => by rw [h v hv])

theorem heightsFold_at {α : Type} [DecidableEq α] (g : DiGraph α) (h0 : α → Option ℚ)
    (l1 l2 : List α) (u : α) (hu : u ∉ l2) :
    ((l1 ++ u :: l2).foldl (heightsStep g) h0) u =
      some (1 + maxHeight (l1.foldl (heightsStep g) h0) (g.succs u)) := by
  rw [List.foldl_append, List.foldl_cons, heightsFold_not_mem g l2 _ u hu]
  exact if_pos rfl

theorem indexOf_split_self {α : Type} [DecidableEq α] (p s : List α) (x : α) (hx : x ∉ p) :
    (p ++ x :: s).indexOf x = p.length := by
  rw [List.indexOf_append_of_not_mem hx, List.indexOf_cons_self]
  omega

theorem indexOf_split_left {α : Type} [DecidableEq α] (p s : List α) (x y : α) (hy : y ∈ p) :
    (p ++ x :: s).indexOf y < p.length := by
  rw [List.indexOf_append_of_mem hy]
  exact List.indexOf_lt_length.mpr hy

theorem indexOf_split_right {α : Type} [DecidableEq α] (p s : List α) (x y : α)
    (hyp : y ∉ p) (hyx : y ≠ x) : p.length < (p ++ x :: s).indexOf y := by
  rw [List.indexOf_append_of_not_mem hyp, List.indexOf_cons_ne _ (fun h => hyx h.symm)]
  omega

/-- In a topological order split `s = sA ++ u :: sB`, every successor of `u`
that occurs in `s` occurs in the tail `sB` (it is processed before `u` in the
reverse-order loop). -/
theorem succ_in_tail {α : Type} [DecidableEq α] (g : DiGraph α) (s sA sB : List α) (u v : α)
    (ht : IsTopoOrder g s) (hsplit : s = sA ++ u :: sB) (he : (u, v) ∈ g.edges)
    (hv : v ∈ s) : v ∈ sB := by
  obtain ⟨hnd, _, _, hedge⟩ := ht
  have hnd' : (sA ++ u :: sB).Nodup := hsplit ▸ hnd
  rw [List.nodup_append] at hnd'
  have huA : u ∉ sA := fun h => hnd'.2.2 h (List.mem_cons_self u sB)
  have hidx := hedge (u, v) he
  dsimp only at hidx
  rw [hsplit] at hidx hv
  rcases List.mem_append.mp hv with hvA | hvCons
  · exfalso
    have hlt := indexOf_split_left sA sB u v hvA
    have heq := indexOf_split_self sA sB u huA
    omega
  · rcases List.mem_cons.mp hvCons with hvu | hvB
    · exfalso
      rw [hvu] at hidx
      exact absurd hidx (lt_irrefl _)
    · exact hvB

/-- The height recurrence: for a valid topological order, every processed
node's height is one plus the maximum height of its successors. -/
theorem computeHeights_recurrence_aux {α : Type} [DecidableEq α] (g : DiGraph α)
    (sorted : List α) (ht : IsTopoOrder g sorted) (u : α) (hu : u ∈ sorted) :
    computeHeights g sorted u =
      some (1 + maxHeight (computeHeights g sorted) (g.succs u)) := by
  obtain ⟨sA, sB, hsplit⟩ := List.append_of_mem hu
  have hnd' : (sA ++ u :: sB).Nodup := hsplit ▸ ht.1
  rw [List.nodup_append] at hnd'
  have huA : u ∉ sA := fun h => hnd'.2.2 h (List.mem_cons_self u sB)
  have huB : u ∉ sB := (List.nodup_cons.mp hnd'.2.1).1
  have hrev : sorted.reverse = sB.reverse ++ u :: sA.reverse := by
    rw [hsplit]
    simp
  have hfinal : computeHeights g sorted =
      (u :: sA.reverse).foldl (heightsStep g)
        (sB.reverse.foldl (heightsStep g) (fun _ => none)) := by
    rw [computeHeights, hrev, List.foldl_append]
  conv_lhs =>
    rw [computeHeights, hrev,
      heightsFold_at g _ sB.reverse sA.reverse u (by simpa using huA)]
  refine congrArg some (congrArg (fun q => 1 + q) ?_)
  apply maxHeight_congr
  intro v hv
  have he : (u, v) ∈ g.edges := (mem_succs_iff g u v).mp hv
  by_cases hvs : v ∈ sorted
  · have hvB : v ∈ sB := succ_in_tail g sorted sA sB u v ht hsplit he hvs
    have hvA : v ∉ sA := fun h => hnd'.2.2 h (List.mem_cons_of_mem u hvB)
    have hvu : v ≠ u := fun h => huB (h ▸ hvB)
    rw [hfinal, heightsFold_not_mem g (u :: sA.reverse) _ v
      (by simp only [List.mem_cons, List.mem_reverse]; push_neg; exact ⟨hvu, hvA⟩)]
  · have hvB : v ∉ sB.reverse := fun h => hvs (by
      rw [hsplit]
      exact List.mem_append.mpr (Or.inr (List.mem_cons_of_mem u (List.mem_reverse.mp h))))
    have hvrev : v ∉ sorted.reverse := fun h => hvs (List.mem_reverse.mp h)
    rw [heightsFold_not_mem g sB.reverse _ v hvB, computeHeights,
      heightsFold_not_mem g sorted.reverse _ v hvrev]

/-- Two valid topological orders of the same graph produce identical height
maps (the recurrence determines the heights uniquely on an acyclic graph). -/
theorem computeHeights_order_irrelevant_aux {α : Type} [DecidableEq α] (g : DiGraph α)
    (s1 s2 : List α) (ht1 : IsTopoOrder g s1) (ht2 : IsTopoOrder g s2) :
    computeHeights g s1 = computeHeights g s2 := by
  have main : ∀ k (u : α) (sA sB : List α), s1 = sA ++ u :: sB → sB.length = k →
      computeHeights g s1 u = computeHeights g s2 u := by
    intro k
    induction k using Nat.strong_induction_on with
    | _ k ih =>
      intro u sA sB hsplit hlen
      have hu1 : u ∈ s1 := hsplit ▸ List.mem_append.mpr (Or.inr (List.mem_cons_self u sB))
      have hu2 : u ∈ s2 := ht2.2.1 u (ht1.2.2.1 u hu1)
      rw [computeHeights_recurrence_aux g s1 ht1 u hu1,
        computeHeights_recurrence_aux g s2 ht2 u hu2]
      refine congrArg some (congrArg (fun q => 1 + q) ?_)
      apply maxHeight_congr
      intro v hv
      have he : (u, v) ∈ g.edges := (mem_succs_iff g u v).mp hv
      by_cases hvs : v ∈ s1
      · have hvB : v ∈ sB := succ_in_tail g s1 sA sB u v ht1 hsplit he hvs
        obtain ⟨p, q, hq⟩ := List.append_of_mem hvB
        have hsplit2 : s1 = (sA ++ u :: p) ++ v :: q := by
          rw [hsplit, hq]
          simp
        have hql : q.length < k := by
          rw [hq] at hlen
          simp only [List.length_append, List.length_cons] at hlen
          omega
        exact ih q.length hql v (sA ++ u :: p) q hsplit2 rfl
      · have hvn : v ∉ g.nodes := fun h => hvs (ht1.2.1 v h)
        have hv2 : v ∉ s2 := fun h => hvn (ht2.2.2.1 v h)
        rw [computeHeights, computeHeights,
          heightsFold_not_mem g s1.reverse _ v (fun h => hvs (List.mem_reverse.mp h)),
          heightsFold_not_mem g s2.reverse _ v (fun h => hv2 (List.mem_reverse.mp h))]
  funext u
  by_cases hu : u ∈ s1
  · obtain ⟨sA, sB, hsplit⟩ := List.append_of_mem hu
    exact main sB.length u sA sB hsplit rfl
  · have hun : u ∉ g.nodes := fun h => hu (ht1.2.1 u h)
    have hu2 : u ∉ s2 := fun h => hun (ht2.2.2.1 u h)
    rw [computeHeights, computeHeights,
      heightsFold_not_mem g s1.reverse _ u (fun h => hu (List.mem_reverse.mp h)),
      heightsFold_not_mem g s2.reverse _ u (fun h => hu2 (List.mem_reverse.mp h))]

/-- C6: for every acyclic dependency graph — presented through a valid
topological order, the contract of the external `topo.Sort` — the heights
satisfy `height[u] = 1 + max(height[v])` over the successors of `u` (the
inner max of an empty successor list is 0, so `height[u] = 1` for nodes with
no outgoing edges); on the chain A→B→C the heights are A=3, B=2, C=1; and
the resulting height map does not depend on which valid topological order
was used. -/
theorem computeHeights_spec :
    (∀ (g : DiGraph Nat) (sorted : List Nat), IsTopoOrder g sorted → ∀ u ∈ g.nodes,
      computeHeights g sorted u =
        some (1 + maxHeight (computeHeights g sorted) (g.succs u))) ∧
    (computeHeights gChain [0, 1, 2] 0 = some 3 ∧
     computeHeights gChain [0, 1, 2] 1 = some 2 ∧
     computeHeights gChain [0, 1, 2] 2 = some 1) ∧
    (∀ (g : DiGraph Nat) (s1 s2 : List Nat), IsTopoOrder g s1 → IsTopoOrder g s2 →
      computeHeights g s1 = computeHeights g s2) := by
  refine ⟨?_, ?_, ?_⟩
  · intro g sorted ht u hu
    exact computeHeights_recurrence_aux g sorted ht u (ht.2.1 u hu)
  · have hrev : ([0, 1, 2] : List Nat).reverse = [2, 1, 0] := by decide
    have hs0 : gChain.succs 0 = [1] := by decide
    have hs1 : gChain.succs 1 = [2] := by decide
    have hs2 : gChain.succs 2 = [] := by decide
    refine ⟨?_, ?_, ?_⟩ <;>
      norm_num [computeHeights, hrev, heightsStep, maxHeight, hs0, hs1, hs2]
  · intro g s1 s2 ht1 ht2
    exact computeHeights_order_irrelevant_aux g s1 s2 ht1 ht2

/-- C6 (witness): the recurrence instantiated on the chain at node 0 (whose
topological-order validity is decided concretely), and order-independence
instantiated on the fork with its two distinct valid orders. -/
theorem computeHeights_spec_witness :
    computeHeights gChain [0, 1, 2] 0 =
      some (1 + maxHeight (computeHeights gChain [0, 1, 2]) (gChain.succs 0)) ∧
    computeHeights gFork [0, 1, 2] = computeHeights gFork [0, 2, 1] :=
  ⟨computeHeights_spec.1 gChain [0, 1, 2] (by decide) 0 (by decide),
   computeHeights_spec.2.2 gFork [0, 1, 2] [0, 2, 1] (by decide) (by decide)⟩

/-- Every non-head element of a chain has an `R`-predecessor in the chain. -/
theorem chain_preds {α : Type} (R : α → α → Prop) (l : List α) (a : α)
    (h : List.Chain R a l) : ∀ x ∈ l, ∃ y ∈ a :: l, R y x := by
  induction l generalizing a with
  | nil => intro x hx; cases hx
  | cons b tl ih =>
    rcases List.chain_cons.mp h with ⟨hab, htl⟩
    intro x hx
    rcases List.mem_cons.mp hx with hxb | hxtl
    · exact ⟨a, List.mem_cons_self a (b :: tl), hxb ▸ hab⟩
    · obtain ⟨y, hy, hR⟩ := ih b htl x hxtl
      exact ⟨y, List.mem_cons_of_mem a hy, hR⟩

/-- From a directed cycle, extract a nonempty node set closed under
"has an in-neighbor in the set". -/
theorem cycle_closed_set {α : Type} (g : DiGraph α) (h : hasDirectedCycle g) :
    ∃ S : List α, S ≠ [] ∧ (∀ x ∈ S, x ∈ g.nodes) ∧
      ∀ x ∈ S, ∃ y ∈ S, (y, x) ∈ g.edges := by
  obtain ⟨u, p, hchain, hmem⟩ := h
  refine ⟨u :: p, List.cons_ne_nil u p, hmem, ?_⟩
  have hpre := chain_preds (fun a b => (a, b) ∈ g.edges) (p ++ [u]) u hchain
  have convert_mem : ∀ y, y ∈ u :: (p ++ [u]) → y ∈ u :: p := by
    intro y hy
    rcases List.mem_cons.mp hy with h1 | h1
    · exact h1 ▸ List.mem_cons_self u p
    · rcases List.mem_append.mp h1 with h2 | h2
      · exact List.mem_cons_of_mem u h2
      · rw [List.mem_singleton.mp h2]
        exact List.mem_cons_self u p
  intro x hx
  rcases List.mem_cons.mp hx with hxu | hxp
  · obtain ⟨y, hy, hR⟩ := hpre u (List.mem_append.mpr (Or.inr (List.mem_singleton.mpr rfl)))
    exact ⟨y, convert_mem y hy, hxu ▸ hR⟩
  · obtain ⟨y, hy, hR⟩ := hpre x (List.mem_append.mpr (Or.inl hxp))
    exact ⟨y, convert_mem y hy, hR⟩

/-- Kahn's sort never succeeds while a closed nonempty set remains: no
member of the set can ever acquire in-degree zero. -/
theorem kahnAux_none {α : Type} [DecidableEq α] (g : DiGraph α) (S : List α) (hne : S ≠ [])
    (hclosed : ∀ x ∈ S, ∃ y ∈ S, (y, x) ∈ g.edges) :
    ∀ fuel remaining, (∀ x ∈ S, x ∈ remaining) → kahnAux g fuel remaining = none := by
  have hrem_ne : ∀ remaining : List α, (∀ x ∈ S, x ∈ remaining) → ¬ remaining.isEmpty = true := by
    intro remaining hsub hempty
    obtain ⟨s, hs⟩ := List.exists_mem_of_ne_nil S hne
    rw [List.isEmpty_iff] at hempty
    exact absurd (hsub s hs) (hempty ▸ List.not_mem_nil s)
  intro fuel
  induction fuel with
  | zero =>
    intro remaining hsub
    simp only [kahnAux]
    rw [if_neg (hrem_ne remaining hsub)]
  | succ fuel ih =>
    intro remaining hsub
    simp only [kahnAux]
    rw [if_neg (hrem_ne remaining hsub)]
    cases hfind : remaining.find?
        (fun u => !(remaining.any (fun v => decide ((v, u) ∈ g.edges)))) with
    | none => rfl
    | some u =>
      have hpred := List.find?_some hfind
      simp only [Bool.not_eq_true', List.any_eq_false, decide_eq_true_eq,
        decide_eq_false_iff_not] at hpred
      have huS : u ∉ S := by
        intro huS
        obtain ⟨y, hyS, hye⟩ := hclosed u huS
        exact hpred y (hsub y hyS) hye
      have hsub' : ∀ x ∈ S, x ∈ remaining.erase u := by
        intro x hx
        refine (List.mem_erase_of_ne ?_).mpr (hsub x hx)
        intro h
        rw [h] at hx
        exact huS hx
      show (kahnAux g fuel (remaining.erase u)).map (fun l => u :: l) = none
      rw [ih (remaining.erase u) hsub']
      rfl

/-- A directed cycle makes the modelled topological sort fail. -/
theorem topoSortKahn_cycle_none {α : Type} [DecidableEq α] (g : DiGraph α)
    (h : hasDirectedCycle g) : topoSortKahn g = none := by
  obtain ⟨S, hne, hnodes, hclosed⟩ := cycle_closed_set g h
  exact kahnAux_none g S hne hclosed g.nodes.length g.nodes hnodes

/-! ## Theorems for the cyclic-degradation claim (C7) -/

/-- C7: for every issue list whose dependency graph contains a directed
cycle, `Analyze` — a total function, it has no error return — produces a
result whose `TopologicalOrder` is empty and whose `CriticalPathScore` map
is empty (no node has an entry), while PageRank is exactly the delegated
computation's output and the in/out-degree maps hold an entry for every
node.  `pr` and `cyc` range over all possible delegate behaviours. -/
theorem Analyze_cyclic_degrades (pr : DiGraph String → String → ℚ)
    (cyc : DiGraph String → List (List String)) (issues : List Issue)
    (hcyc : hasDirectedCycle (NewAnalyzer issues)) :
    (Analyze pr cyc (NewAnalyzer issues)).TopologicalOrder = [] ∧
    (∀ x, (Analyze pr cyc (NewAnalyzer issues)).CriticalPathScore x = none) ∧
    (Analyze pr cyc (NewAnalyzer issues)).PageRank = pr (NewAnalyzer issues) ∧
    (∀ x ∈ (NewAnalyzer issues).nodes,
      ((Analyze pr cyc (NewAnalyzer issues)).InDegree x).isSome = true ∧
      ((Analyze pr cyc (NewAnalyzer issues)).OutDegree x).isSome = true) := by
  have hk : topoSortKahn (NewAnalyzer issues) = none := topoSortKahn_cycle_none _ hcyc
  refine ⟨?_, ?_, rfl, ?_⟩
  · simp only [Analyze, hk]
  · intro x
    simp only [Analyze, hk]
  · intro x hx
    simp only [Analyze, hx, if_true, Option.isSome_some, and_self]

/-- C7 (witness): the degradation instantiated on the concrete 2-cycle, with
concrete delegates. -/
theorem Analyze_cyclic_degrades_witness :
    (Analyze (fun _ _ => 0) (fun _ => []) (NewAnalyzer issuesCyc)).TopologicalOrder = [] ∧
    (Analyze (fun _ _ => 0) (fun _ => []) (NewAnalyzer issuesCyc)).CriticalPathScore "A" = none ∧
    ((Analyze (fun _ _ => 0) (fun _ => []) (NewAnalyzer issuesCyc)).InDegree "A").isSome = true ∧
    ((Analyze (fun _ _ => 0) (fun _ => []) (NewAnalyzer issuesCyc)).OutDegree "A").isSome = true := by
  have hcyc : hasDirectedCycle (NewAnalyzer issuesCyc) :=
    ⟨"A", ["B"],
      List.Chain.cons (by decide) (List.Chain.cons (by decide) List.Chain.nil),
      by decide⟩
  have h := Analyze_cyclic_degrades (fun _ _ => 0) (fun _ => []) issuesCyc hcyc
  exact ⟨h.1, h.2.1 "A", (h.2.2.2 "A" (by decide)).1, (h.2.2.2 "A" (by decide)).2⟩

theorem passInit_mem {α : Type} [DecidableEq α] (nodes : List α) (b : Buffers α) (x : α)
    (hx : x ∈ nodes) :
    (passInit nodes b).sigma x = 0 ∧ (passInit nodes b).dist x = -1 ∧
      (passInit nodes b).delta x = 0 ∧ (passInit nodes b).pred x = [] := by
  refine ⟨?_, ?_, ?_, ?_⟩
  · rw [passInit_sigma, foldl_fupd_mem _ _ _ _ hx]
  · rw [passInit_dist, foldl_fupd_mem _ _ _ _ hx]
  · rw [passInit_delta, foldl_fupd_mem _ _ _ _ hx]
  · rw [passInit_pred, foldl_fupd_mem _ _ _ _ hx]

theorem foldl_fupd_fn_congr_at {α β : Type} [DecidableEq α] (l : List α) (c : α → β)
    (f0 g0 : α → β) (x : α) (h : f0 x = g0 x) :
    (l.foldl (fun f n => fupd f n (c n)) f0) x = (l.foldl (fun f n => fupd f n (c n)) g0) x := by
  induction l generalizing f0 g0 with
  | nil => exact h
  | cons a tl ih =>
    rw [List.foldl_cons, List.foldl_cons]
    apply ih
    by_cases hxa : x = a
    · rw [hxa, fupd_same, fupd_same]
    · rw [fupd_other _ _ _ _ hxa, fupd_other _ _ _ _ hxa]
      exact h

/-- Every stack entry's node is a node of the graph. -/
theorem sortedStack_mem {α : Type} [DecidableEq α] (g : DiGraph α) (source : α)
    (nd : α × Nat) (hnd : nd ∈ sortedStack g source) : nd.1 ∈ g.nodes := by
  unfold sortedStack at hnd
  rw [List.mem_insertionSort] at hnd
  obtain ⟨n, hn, hmap⟩ := List.mem_map.mp hnd
  have := List.mem_filter.mp hn
  rw [← hmap]
  exact this.1

/-- The distance maps the pooled and fresh passes assign agree on every
node of the graph. -/
theorem assignDist_congr {α : Type} [DecidableEq α] (g : DiGraph α) (source : α)
    (b : Buffers α) (x : α) (hx : x ∈ g.nodes) :
    assignDist g source (fupd (passInit g.nodes b).dist source 0) x =
      assignDist g source (fupd (passInit g.nodes (emptyBuffers α)).dist source 0) x := by
  unfold assignDist
  apply foldl_fupd_fn_congr_at
  by_cases hxs : x = source
  · rw [hxs, fupd_same, fupd_same]
  · rw [fupd_other _ _ _ _ hxs, fupd_other _ _ _ _ hxs,
      (passInit_mem g.nodes b x hx).2.1, (passInit_mem g.nodes (emptyBuffers α) x hx).2.1]

theorem sigmaFold_congr {α : Type} [DecidableEq α] (nodes : List α) (nid : α)
    (hnid : nid ∈ nodes) (ps : List α) (hps : ∀ p ∈ ps, p ∈ nodes) (f1 f2 : α → ℚ)
    (hf : ∀ x ∈ nodes, f1 x = f2 x) :
    ∀ x ∈ nodes, (ps.foldl (fun f p => fupd f nid (f nid + f p)) f1) x =
      (ps.foldl (fun f p => fupd f nid (f nid + f p)) f2) x := by
  induction ps generalizing f1 f2 with
  | nil => exact hf
  | cons a tl ih =>
    rw [List.foldl_cons, List.foldl_cons]
    apply ih (fun p hp => hps p (List.mem_cons_of_mem a hp))
    intro x hx
    by_cases hxn : x = nid
    · rw [hxn, fupd_same, fupd_same, hf nid hnid, hf a (hps a (List.mem_cons_self a tl))]
    · rw [fupd_other _ _ _ _ hxn, fupd_other _ _ _ _ hxn]
      exact hf x hx

theorem deltaFold_congr {α : Type} [DecidableEq α] (nodes : List α) (nid : α)
    (hnid : nid ∈ nodes) (σ1 σ2 : α → ℚ) (hσ : ∀ x ∈ nodes, σ1 x = σ2 x)
    (ps : List α) (hps : ∀ p ∈ ps, p ∈ nodes) (d1 d2 : α → ℚ)
    (hd : ∀ x ∈ nodes, d1 x = d2 x) :
    ∀ x ∈ nodes,
      (ps.foldl (fun d pid =>
        if 0 < σ1 nid then fupd d pid (d pid + σ1 pid / σ1 nid * (1 + d nid)) else d) d1) x =
      (ps.foldl (fun d pid =>
        if 0 < σ2 nid then fupd d pid (d pid + σ2 pid / σ2 nid * (1 + d nid)) else d) d2) x := by
  induction ps generalizing d1 d2 with
  | nil => exact hd
  | cons a tl ih =>
    rw [List.foldl_cons, List.foldl_cons]
    apply ih (fun p hp => hps p (List.mem_cons_of_mem a hp))
    intro x hx
    have hσn : σ1 nid = σ2 nid := hσ nid hnid
    have hσa : σ1 a = σ2 a := hσ a (hps a (List.mem_cons_self a tl))
    by_cases hpos : 0 < σ1 nid
    · rw [if_pos hpos, if_pos (hσn ▸ hpos)]
      by_cases hxa : x = a
      · rw [hxa, fupd_same, fupd_same, hd a (hps a (List.mem_cons_self a tl)),
          hσa, hσn, hd nid hnid]
      · rw [fupd_other _ _ _ _ hxa, fupd_other _ _ _ _ hxa]
        exact hd x hx
    · rw [if_neg hpos, if_neg (hσn ▸ hpos)]
      exact hd x hx

/-- One sigma/pred construction step started from agreeing states (and
agreeing distance maps) produces agreeing states; predecessor lists keep
their entries inside the node set. -/
theorem buildStep_congr {α : Type} [DecidableEq α] (g : DiGraph α) (source : α)
    (hwf : g.wellFormed) (hs : source ∈ g.nodes) (dist1 dist2 : α → ℚ)
    (hdist : ∀ x ∈ g.nodes, dist1 x = dist2 x) (st1 st2 : (α → ℚ) × (α → List α))
    (nd : α × Nat) (hnd : nd.1 ∈ g.nodes)
    (hσ : ∀ x ∈ g.nodes, st1.1 x = st2.1 x)
    (hpr : ∀ x ∈ g.nodes, st1.2 x = st2.2 x)
    (hcl : ∀ x ∈ g.nodes, ∀ p ∈ st1.2 x, p ∈ g.nodes) :
    (∀ x ∈ g.nodes,
      (buildStep g source dist1 st1 nd).1 x = (buildStep g source dist2 st2 nd).1 x) ∧
    (∀ x ∈ g.nodes,
      (buildStep g source dist1 st1 nd).2 x = (buildStep g source dist2 st2 nd).2 x) ∧
    (∀ x ∈ g.nodes, ∀ p ∈ (buildStep g source dist1 st1 nd).2 x, p ∈ g.nodes) := by
  have hpsub : ∀ p ∈ g.preds nd.1, p ∈ g.nodes := fun p hp =>
    (hwf (p, nd.1) ((mem_preds_iff g p nd.1).mp hp)).1
  have hfil : (g.preds nd.1).filter
        (fun p => !(decide (dist1 p < 0)) && decide (dist1 p + 1 = (nd.2 : ℚ)))
      = (g.preds nd.1).filter
        (fun p => !(decide (dist2 p < 0)) && decide (dist2 p + 1 = (nd.2 : ℚ))) := by
    apply List.filter_congr
    intro p hp
    rw [hdist p (hpsub p hp)]
  simp only [buildStep]
  rw [hpr nd.1 hnd, hfil]
  generalize hEg : st2.2 nd.1 ++ (g.preds nd.1).filter
      (fun p => !(decide (dist2 p < 0)) && decide (dist2 p + 1 = (nd.2 : ℚ))) = E
  have hEsub : ∀ p ∈ E, p ∈ g.nodes := by
    intro p hp
    rw [← hEg] at hp
    rcases List.mem_append.mp hp with h1 | h1
    · refine hcl nd.1 hnd p ?_
      rw [hpr nd.1 hnd]
      exact h1
    · exact hpsub p (List.mem_filter.mp h1).1
  by_cases hE : E.isEmpty
  · rw [if_pos hE, if_pos hE]
    by_cases hsrc : nd.1 ≠ source ∧ source ∈ g.preds nd.1
    · rw [if_pos hsrc, if_pos hsrc]
      refine ⟨?_, ?_, ?_⟩
      · intro x hx
        dsimp only
        by_cases hxn : x = nd.1
        · rw [hxn, fupd_same, fupd_same]
        · rw [fupd_other _ _ _ _ hxn, fupd_other _ _ _ _ hxn]
          exact hσ x hx
      · intro x hx
        dsimp only
        by_cases hxn : x = nd.1
        · rw [hxn, fupd_same, fupd_same]
        · rw [fupd_other _ _ _ _ hxn, fupd_other _ _ _ _ hxn]
          exact hpr x hx
      · intro x hx p hp
        dsimp only at hp
        by_cases hxn : x = nd.1
        · rw [hxn, fupd_same] at hp
          rw [List.mem_singleton.mp hp]
          exact hs
        · rw [fupd_other _ _ _ _ hxn] at hp
          exact hcl x hx p hp
    · rw [if_neg hsrc, if_neg hsrc]
      exact ⟨hσ, hpr, hcl⟩
  · rw [if_neg hE, if_neg hE]
    refine ⟨?_, ?_, ?_⟩
    · intro x hx
      dsimp only
      exact sigmaFold_congr g.nodes nd.1 hnd E hEsub st1.1 st2.1 hσ x hx
    · intro x hx
      dsimp only
      by_cases hxn : x = nd.1
      · rw [hxn, fupd_same, fupd_same]
      · rw [fupd_other _ _ _ _ hxn, fupd_other _ _ _ _ hxn]
        exact hpr x hx
    · intro x hx p hp
      dsimp only at hp
      by_cases hxn : x = nd.1
      · rw [hxn, fupd_same] at hp
        exact hEsub p hp
      · rw [fupd_other _ _ _ _ hxn] at hp
        exact hcl x hx p hp

theorem buildFold_congr {α : Type} [DecidableEq α] (g : DiGraph α) (source : α)
    (hwf : g.wellFormed) (hs : source ∈ g.nodes) (dist1 dist2 : α → ℚ)
    (hdist : ∀ x ∈ g.nodes, dist1 x = dist2 x) (l : List (α × Nat))
    (hl : ∀ nd ∈ l, nd.1 ∈ g.nodes) (st1 st2 : (α → ℚ) × (α → List α))
    (hσ : ∀ x ∈ g.nodes, st1.1 x = st2.1 x)
    (hpr : ∀ x ∈ g.nodes, st1.2 x = st2.2 x)
    (hcl : ∀ x ∈ g.nodes, ∀ p ∈ st1.2 x, p ∈ g.nodes) :
    (∀ x ∈ g.nodes, (l.foldl (buildStep g source dist1) st1).1 x =
      (l.foldl (buildStep g source dist2) st2).1 x) ∧
    (∀ x ∈ g.nodes, (l.foldl (buildStep g source dist1) st1).2 x =
      (l.foldl (buildStep g source dist2) st2).2 x) ∧
    (∀ x ∈ g.nodes, ∀ p ∈ (l.foldl (buildStep g source dist1) st1).2 x, p ∈ g.nodes) := by
  induction l generalizing st1 st2 with
  | nil => exact ⟨hσ, hpr, hcl⟩
  | cons a tl ih =>
    simp only [List.foldl_cons]
    obtain ⟨h1, h2, h3⟩ := buildStep_congr g source hwf hs dist1 dist2 hdist st1 st2 a
      (hl a (List.mem_cons_self a tl)) hσ hpr hcl
    exact ih (fun nd hnd => hl nd (List.mem_cons_of_mem a hnd)) _ _ h1 h2 h3

/-- The sigma and predecessor maps of a pass started on a reused buffer
agree, on every node, with those of the fresh pass; predecessor entries stay
inside the node set. -/
theorem passSigmaPred_congr {α : Type} [DecidableEq α] (g : DiGraph α) (source : α)
    (hwf : g.wellFormed) (hs : source ∈ g.nodes) (b : Buffers α) :
    (∀ x ∈ g.nodes,
      (passSigmaPred g source b).1 x = (passSigmaPred g source (emptyBuffers α)).1 x) ∧
    (∀ x ∈ g.nodes,
      (passSigmaPred g source b).2 x = (passSigmaPred g source (emptyBuffers α)).2 x) ∧
    (∀ x ∈ g.nodes, ∀ p ∈ (passSigmaPred g source b).2 x, p ∈ g.nodes) := by
  unfold passSigmaPred
  apply buildFold_congr g source hwf hs _ _ (assignDist_congr g source b) _
    (fun nd hnd => sortedStack_mem g source nd hnd)
  · intro x hx
    dsimp only
    by_cases hxs : x = source
    · rw [hxs, fupd_same, fupd_same]
    · rw [fupd_other _ _ _ _ hxs, fupd_other _ _ _ _ hxs,
        (passInit_mem g.nodes b x hx).1, (passInit_mem g.nodes (emptyBuffers α) x hx).1]
  · intro x hx
    dsimp only
    rw [(passInit_mem g.nodes b x hx).2.2.2, (passInit_mem g.nodes (emptyBuffers α) x hx).2.2.2]
  · intro x hx p hp
    dsimp only at hp
    rw [(passInit_mem g.nodes b x hx).2.2.2] at hp
    cases hp

theorem accStep_congr_pair {α : Type} [DecidableEq α] (source : α) (nodes : List α)
    (σ1 σ2 : α → ℚ) (pr1 pr2 : α → List α)
    (hσ : ∀ x ∈ nodes, σ1 x = σ2 x) (hpr : ∀ x ∈ nodes, pr1 x = pr2 x)
    (hcl : ∀ x ∈ nodes, ∀ p ∈ pr1 x, p ∈ nodes)
    (st1 st2 : (α → ℚ) × (α → ℚ)) (nd : α × Nat) (hnd : nd.1 ∈ nodes)
    (hδ : ∀ x ∈ nodes, st1.1 x = st2.1 x) (hbc : st1.2 = st2.2) :
    (∀ x ∈ nodes, (accStep source σ1 pr1 st1 nd).1 x = (accStep source σ2 pr2 st2 nd).1 x) ∧
    (accStep source σ1 pr1 st1 nd).2 = (accStep source σ2 pr2 st2 nd).2 := by
  simp only [accStep]
  have hσn : σ1 nd.1 = σ2 nd.1 := hσ nd.1 hnd
  have hpn : pr2 nd.1 = pr1 nd.1 := (hpr nd.1 hnd).symm
  by_cases hz : σ1 nd.1 = 0
  · have hz2 : σ2 nd.1 = 0 := by rw [← hσn]; exact hz
    rw [if_pos hz, if_pos hz2]
    exact ⟨hδ, hbc⟩
  · have hz2 : ¬ σ2 nd.1 = 0 := by rw [← hσn]; exact hz
    rw [if_neg hz, if_neg hz2, hpn]
    have hdcongr := deltaFold_congr nodes nd.1 hnd σ1 σ2 hσ (pr1 nd.1) (hcl nd.1 hnd)
      st1.1 st2.1 hδ
    by_cases hns : nd.1 ≠ source
    · rw [if_pos hns, if_pos hns]
      refine ⟨fun x hx => ?_, ?_⟩
      · dsimp only
        exact hdcongr x hx
      · dsimp only
        rw [hbc, hdcongr nd.1 hnd]
    · rw [if_neg hns, if_neg hns]
      refine ⟨fun x hx => ?_, ?_⟩
      · dsimp only
        exact hdcongr x hx
      · dsimp only
        exact hbc

theorem accFold_congr {α : Type} [DecidableEq α] (source : α) (nodes : List α)
    (σ1 σ2 : α → ℚ) (pr1 pr2 : α → List α)
    (hσ : ∀ x ∈ nodes, σ1 x = σ2 x) (hpr : ∀ x ∈ nodes, pr1 x = pr2 x)
    (hcl : ∀ x ∈ nodes, ∀ p ∈ pr1 x, p ∈ nodes)
    (l : List (α × Nat)) (hl : ∀ nd ∈ l, nd.1 ∈ nodes)
    (st1 st2 : (α → ℚ) × (α → ℚ))
    (hδ : ∀ x ∈ nodes, st1.1 x = st2.1 x) (hbc : st1.2 = st2.2) :
    (∀ x ∈ nodes, (l.foldl (accStep source σ1 pr1) st1).1 x =
      (l.foldl (accStep source σ2 pr2) st2).1 x) ∧
    (l.foldl (accStep source σ1 pr1) st1).2 = (l.foldl (accStep source σ2 pr2) st2).2 := by
  induction l generalizing st1 st2 with
  | nil => exact ⟨hδ, hbc⟩
  | cons a tl ih =>
    simp only [List.foldl_cons]
    obtain ⟨h1, h2⟩ := accStep_congr_pair source nodes σ1 σ2 pr1 pr2 hσ hpr hcl st1 st2 a
      (hl a (List.mem_cons_self a tl)) hδ hbc
    exact ih (fun nd hnd => hl nd (List.mem_cons_of_mem a hnd)) _ _ h1 h2

/-- A pass on a reused (stale, reset) buffer returns the same accumulator as
the fresh-allocation pass. -/
theorem runPass_pool_eq {α : Type} [DecidableEq α] (g : DiGraph α) (source : α)
    (hwf : g.wellFormed) (hs : source ∈ g.nodes) (stale : Buffers α) (bc : α → ℚ) :
    runPass g source stale bc = runPass g source (emptyBuffers α) bc := by
  unfold runPass
  obtain ⟨hσ, hpr, hcl⟩ := passSigmaPred_congr g source hwf hs stale
  exact (accFold_congr source g.nodes
    (passSigmaPred g source stale).1 (passSigmaPred g source (emptyBuffers α)).1
    (passSigmaPred g source stale).2 (passSigmaPred g source (emptyBuffers α)).2
    hσ hpr hcl (sortedStack g source).reverse
    (fun nd hnd => sortedStack_mem g source nd (List.mem_reverse.mp hnd))
    ((passInit g.nodes stale).delta, bc) ((passInit g.nodes (emptyBuffers α)).delta, bc)
    (fun x hx => by
      dsimp only
      rw [(passInit_mem g.nodes stale x hx).2.2.1,
        (passInit_mem g.nodes (emptyBuffers α) x hx).2.2.1])
    rfl).2

/-- C10: the buffer-pooled single-source pass — buffers checked out with
arbitrary stale contents, reset in place, and reused — produces per-node
scores identical to the fresh-allocation single-source pass on the same
(graph, pivot) pair: equal outright in the exact rational semantics, hence
within the claimed 1e-10 tolerance. -/
theorem pooledSingleSourceBetweenness_transparent {α : Type} [DecidableEq α]
    (g : DiGraph α) (source : α) (hwf : g.wellFormed) (hs : source ∈ g.nodes)
    (stale : Buffers α) (bc : α → ℚ) (n : α) :
    pooledSingleSourceBetweenness g source stale bc n =
      singleSourceBetweenness g source bc n ∧
    |pooledSingleSourceBetweenness g source stale bc n -
      singleSourceBetweenness g source bc n| ≤ 1 / 10 ^ 10 := by
  have h : pooledSingleSourceBetweenness g source stale bc =
      singleSourceBetweenness g source bc :=
    runPass_pool_eq g source hwf hs stale bc
  rw [h]
  refine ⟨rfl, ?_⟩
  rw [sub_self, abs_zero]
  positivity

/-- C10 (witness): pooled and fresh pass agree on the concrete path graph
with a garbage-filled stale buffer. -/
theorem pooledSingleSourceBetweenness_transparent_witness :
    pooledSingleSourceBetweenness gP3 0 staleDemo (fun _ => 0) 1 =
      singleSourceBetweenness gP3 0 (fun _ => 0) 1 :=
  (pooledSingleSourceBetweenness_transparent gP3 0 (by decide) (by decide) staleDemo
    (fun _ => 0) 1).1

